import Mathlib

/-!
Verification development for the meteole forecast core
(`src/meteole/forecast.py`).

Strings are modelled as `List Char`.  Python string operations used by the
source (`str.split` with a one-, two- or three-character separator,
`str.strip("_")`, `re.sub`) are embedded as executable functions below.
Pandas dataframes are modelled as lists of rows; the capabilities dataframe
built by `_build_capabilities` is a list of `CatRow` records (one per
coverage id, with the derived `indicator` / `run` / `interval` columns).
The model classes' `INDICATORS` and `INSTANT_INDICATORS` class constants
live in subclasses outside the core file, so they are parameters here.
Network-facing collaborators (`get_coverage_description`, the raster
fetch/decode) are parameters as well, following the spec's interface
boundary: a coverage description is abstracted by a function from coverage
id to its list of forecast horizons.
-/

/-- Strings of the Python source, as lists of characters. -/
abbrev Str := List Char

/-- Convert a Lean string literal to the `List Char` representation. -/
def chars (s : String) : Str := s.data

/-- Attach a character to the front of the first chunk of a split result.
Helper for the Python-style split functions. -/
def glueHead (c : Char) : List Str → List Str
  | [] => [[c]]
  | chunk :: rest => (c :: chunk) :: rest

/-- Python `s.split(sc)` for a single-character separator `sc`:
splits at every occurrence, keeping empty chunks. -/
def splitOnChar (sc : Char) : Str → List Str
  | [] => [[]]
  | c :: cs =>
    if c = sc then [] :: splitOnChar sc cs
    else glueHead c (splitOnChar sc cs)

/-- Python `s.split("___")`: splits at every leftmost non-overlapping
occurrence of a triple underscore, keeping empty chunks. -/
def splitTU : Str → List Str
  | [] => [[]]
  | c :: cs =>
    if c = '_' then
      match cs with
      | d :: e :: rest =>
        if d = '_' ∧ e = '_' then [] :: splitTU rest
        else glueHead c (splitTU (d :: e :: rest))
      | cs' => glueHead c (splitTU cs')
    else glueHead c (splitTU cs)

/-- Python `s.split("__")`: splits at every leftmost non-overlapping
occurrence of a double underscore, keeping empty chunks. -/
def splitDU : Str → List Str
  | [] => [[]]
  | c :: cs =>
    if c = '_' then
      match cs with
      | d :: rest =>
        if d = '_' then [] :: splitDU rest
        else glueHead c (splitDU (d :: rest))
      | cs' => glueHead c (splitDU cs')
    else glueHead c (splitDU cs)

/-- Python `s.strip(c)`: removes every leading and trailing occurrence of
the character `c`. -/
def stripChar (sc : Char) (l : Str) : Str :=
  ((l.dropWhile (· = sc)).reverse.dropWhile (· = sc)).reverse

/-- Pandas `Series.unique().tolist()`: deduplication keeping the first
occurrence of each value, preserving order. -/
def pyUnique (l : List Str) : List Str :=
  l.foldl (fun acc x => if x ∈ acc then acc else acc ++ [x]) []

/-- Lexicographic (≤) comparison of strings, as Python compares `str`
values (code points, left to right). -/
def lexLe : Str → Str → Bool
  | [], _ => true
  | _ :: _, [] => false
  | a :: as', b :: bs' =>
    if a = b then lexLe as' bs' else decide (a < b)

/-- Maximum of a list of strings under the lexicographic order: the
"latest" run in a list of ISO-8601-like run timestamps
(`runs.max()` over the catalog column). -/
def lexMax (l : List Str) : Str :=
  l.foldl (fun acc x => if lexLe acc x then x else acc) []

/-- Separator character expected at position `i` of a run timestamp
`YYYY-MM-DDTHH.MM.SSZ`; `none` at the digit positions. -/
def sepAt (i : Nat) : Option Char :=
  if i = 4 ∨ i = 7 then some '-'
  else if i = 10 then some 'T'
  else if i = 13 ∨ i = 16 then some '.'
  else if i = 19 then some 'Z'
  else none

/-- Character-level check for position `i` of a run timestamp. -/
def chOk (i : Nat) (c : Char) : Bool :=
  match sepAt i with
  | some s => c = s
  | none => c.isDigit

/-- Shape part of the run-format check: 20 characters, digits and the
fixed separators `-`, `-`, `T`, `.`, `.`, `Z` in their places. -/
def validRunShape (l : Str) : Bool :=
  l.length = 20 && (List.range 20).all (fun i => chOk i (l.getD i ' '))

/-- Gregorian leap-year rule, as `datetime` validates dates. -/
def isLeap (y : Nat) : Bool :=
  (y % 4 = 0 && ¬ y % 100 = 0) || y % 400 = 0

/-- Number of days of month `m` in year `y`. -/
def daysInMonth (y m : Nat) : Nat :=
  if m = 2 then (if isLeap y then 29 else 28)
  else if m = 4 ∨ m = 6 ∨ m = 9 ∨ m = 11 then 30
  else 31

/-- Numeric value of the digit at position `i`. -/
def digitAt (l : Str) (i : Nat) : Nat :=
  (l.getD i '0').toNat - 48

/-- Field-range part of the run-format check: the month, day, hour,
minute and second fields must denote a valid timestamp. -/
def runFieldsOk (l : Str) : Bool :=
  let y := 1000 * digitAt l 0 + 100 * digitAt l 1 + 10 * digitAt l 2 + digitAt l 3
  let m := 10 * digitAt l 5 + digitAt l 6
  let d := 10 * digitAt l 8 + digitAt l 9
  let h := 10 * digitAt l 11 + digitAt l 12
  let mi := 10 * digitAt l 14 + digitAt l 15
  let s := 10 * digitAt l 17 + digitAt l 18
  1 ≤ m && m ≤ 12 && 1 ≤ d && d ≤ daysInMonth y m && h ≤ 23 && mi ≤ 59 && s ≤ 59

/-- Model of `dt.datetime.strptime(run, "%Y-%m-%dT%H.%M.%SZ")` succeeding:
the zero-padded timestamp shape with in-range, calendar-valid fields. -/
def validRunFormat (l : Str) : Bool :=
  validRunShape l && runFieldsOk l

/-- One row of the capabilities dataframe built by `_build_capabilities`:
the derived `indicator`, `run` and `interval` columns of one coverage id
(instant indicators carry the empty interval). -/
structure CatRow where
  indicator : Str
  run : Str
  interval : Str
deriving DecidableEq, Repr

/-- `Forecast._get_coverage_id(indicator, run, interval)`: resolves an
indicator plus optional run and interval to a coverage id against the
capabilities catalog.  `INDICATORS` and `INSTANT` are the model's static
indicator lists (class constants of the concrete model subclass).
Python exceptions are modelled as `Except.error` with a fixed message. -/
def getCoverageId (INDICATORS INSTANT : List Str) (catalog : List CatRow)
    (indicator : Str) (run? : Option Str) (interval? : Option Str) :
    Except String Str :=
  let capabilities := catalog.filter (fun r => r.indicator = indicator)
  if indicator ∉ INDICATORS then
    .error "Unknown `indicator` - checkout `indicators` to have the full list."
  else
    match
      (match run? with
       | some r => Except.ok r
       | none =>
         match capabilities.head? with
         | some row => Except.ok row.run
         | none => Except.error "IndexError: index 0 is out of bounds") with
    | .error e => .error e
    | .ok run =>
      if ¬ validRunFormat run then
        .error "Run is invalid. Expected format YYYY-MM-DDTHH.MM.SSZ"
      else
        let validRuns := pyUnique (capabilities.map (·.run))
        if run ∉ validRuns then .error "Run is invalid. Valid runs : ..."
        else
          let validIntervals := pyUnique (capabilities.map (·.interval))
          match
            (if indicator ∈ INSTANT then
              match interval? with
              | none => Except.ok (none : Option Str)
              | some _ =>
                Except.error
                  "interval is invalid. No interval is expected for instant indicator."
            else
              match interval? with
              | none => Except.ok (some (chars "P1D"))
              | some iv =>
                if iv ∈ validIntervals then Except.ok (some iv)
                else Except.error "interval is invalid for non-instant indicators.") with
          | .error e => .error e
          | .ok interval =>
            let coverage_id := indicator ++ chars "___" ++ run
            match interval with
            | some iv => .ok (coverage_id ++ '_' :: iv)
            | none => .ok coverage_id

/-- The catalog's identifier-splitting rule of `_build_capabilities`:
`indicator = id.split("___")[0]`,
`run = id.split("___")[1].split("Z")[0] + "Z"`,
`interval = id.split("___")[1].split("Z")[1].strip("_")`.
Python list indexing out of range is modelled by `none`. -/
def decomposeId (cid : Str) : Option (Str × Str × Str) := do
  let parts := splitTU cid
  let ind ← parts[0]?
  let rest ← parts[1]?
  let zs := splitOnChar 'Z' rest
  let runBody ← zs[0]?
  let tail ← zs[1]?
  return (ind, runBody ++ ['Z'], stripChar '_' tail)

/-- `Forecast.get_forecast_horizons(coverage_ids)`: the per-coverage lists
of available forecast horizons, in input order.  `desc` abstracts
`get_coverage_description(coverage_id)["forecast_horizons"]` (a network
collaborator outside the core). -/
def getForecastHorizonsList (desc : Str → List Int) (coverage_ids : List Str) :
    List (List Int) :=
  coverage_ids.map desc

/-- `Forecast.find_common_forecast_horizons(list_coverage_id)`: starts from
the first coverage's horizon list and successively filters it by membership
in each later list (order-preserving pairwise intersection), then sorts.
Python's `sorted` is modelled by stable insertion sort; `none` models the
`IndexError` raised by `[0]` on an empty input list. -/
def findCommonForecastHorizons (desc : Str → List Int) (list_coverage_id : List Str) :
    Option (List Int) :=
  match getForecastHorizonsList desc list_coverage_id with
  | [] => none
  | first :: restLists =>
    some (List.insertionSort (· ≤ ·)
      (restLists.foldl (fun common times => common.filter (fun t => t ∈ times)) first))

/-- `Forecast.validate_forecast_horizons(coverage_ids, forecast_horizons)`:
the coverage ids (in input order) whose available horizons do not contain
every requested horizon (`set(forecast_horizons).issubset(times)`). -/
def validateForecastHorizons (desc : Str → List Int) (coverage_ids : List Str)
    (forecast_horizons : List Int) : List Str :=
  ((coverage_ids.zip (getForecastHorizonsList desc coverage_ids)).filter
    (fun p => ¬ forecast_horizons.all (fun h => h ∈ p.2))).map Prod.fst

/-- Scanner for `re.sub(r"\d.*", "", s)`.  In the `true` (skipping) state
the characters of the matched `\d.*` occurrence are dropped until the end
of the line (`.` does not match a newline); in the `false` state a digit
starts a new match and every other character is kept. -/
def subDigitRestGo : Bool → Str → Str
  | _, [] => []
  | true, c :: cs =>
    if c = '\n' then c :: subDigitRestGo false cs
    else subDigitRestGo true cs
  | false, c :: cs =>
    if c.isDigit then subDigitRestGo true cs
    else c :: subDigitRestGo false cs

/-- `re.sub(r"\d.*", "", s)`: each maximal occurrence of a digit followed
by the rest of its line is removed. -/
def subDigitRest (l : Str) : Str :=
  subDigitRestGo false l

/-- Base-name derivation of `_get_data_single_forecast` when the decoded
measurement column is the literal `"unknown"`: the lowercase initials of
the underscore-separated words of `coverage_id.split("__")[0]`.
`none` models the `IndexError` of `word[0]` on an empty word. -/
def unknownBaseName (coverage_id : Str) : Option Str := do
  let part := (splitDU coverage_id).headD []
  let words := splitOnChar '_' part
  let initials ← words.mapM List.head?
  return initials.map Char.toLower

/-- Base-name derivation of `_get_data_single_forecast`: initials rule for
the `"unknown"` placeholder, otherwise `re.sub(r"\d.*", "", column)`. -/
def measurementBaseName (coverage_id indicator_column : Str) : Option Str :=
  if indicator_column = chars "unknown" then unknownBaseName coverage_id
  else some (subDigitRest indicator_column)

/-- Measurement-column naming of `_get_data_single_forecast`: base name
plus `_{height}m` when a `heightAboveGround` column is present, else
`_{pressure}hpa` when an `isobaricInhPa` column is present, else nothing.
The first value of the height / pressure column (already truncated to an
integer by Python's `int(...)`) is abstracted by the `Option Int`
arguments, whose presence models the presence of the column. -/
def measurementColumnName (coverage_id indicator_column : Str)
    (height? pressure? : Option Int) : Option Str := do
  let base ← measurementBaseName coverage_id indicator_column
  let suffix :=
    match height? with
    | some h => '_' :: (toString h).data ++ ['m']
    | none =>
      match pressure? with
      | some p => '_' :: (toString p).data ++ chars "hpa"
      | none => []
  return base ++ suffix

/-- The fetch-and-concatenate step of `Forecast.get_coverage` (lines
167-181): one `_get_data_single_forecast` call per element of the
Cartesian product of the validated forecast horizons, pressures and
heights — horizon loop outermost, then pressure, then height — with the
`-1` sentinel of an inapplicable axis translated to `None`, and the
resulting tables concatenated row-wise in iteration order
(`pd.concat(df_list, axis=0).reset_index(drop=True)`; the dropped pandas
index is not part of the row model).  `fetch` abstracts
`_get_data_single_forecast` as the list of rows it returns for
(forecast_horizon, height, pressure). -/
def getCoverageConcat {Row : Type} (fetch : Int → Option Int → Option Int → List Row)
    (heights pressures forecast_horizons : List Int) : List Row :=
  (forecast_horizons.flatMap fun forecast_horizon =>
    pressures.flatMap fun pressure =>
      heights.map fun height =>
        fetch forecast_horizon
          (if height = -1 then none else some height)
          (if pressure = -1 then none else some pressure)).flatten

/-- `pd.merge(left, right, on=["latitude", "longitude", "run",
"forecast_horizon"], how="inner", validate="one_to_one")`, as used by
`get_combined_coverage` to reduce the per-indicator tables of one run.
A table is a list of rows, each a join key (the four key columns,
abstracted to a type `K`) paired with the row's measurement values; the
inner join concatenates the measurement values of matching rows (the
claim's disjoint-column assumption makes pandas' column alignment exactly
this concatenation).  `validate="one_to_one"` checks that the join keys
are unique on both sides and raises `MergeError` otherwise. -/
def pdMergeOneToOne {K V : Type} [DecidableEq K]
    (left right : List (K × List V)) : Except String (List (K × List V)) :=
  if (left.map Prod.fst).Nodup ∧ (right.map Prod.fst).Nodup then
    .ok (left.flatMap fun lr =>
      (right.filter fun rr => rr.1 = lr.1).map fun rr => (lr.1, lr.2 ++ rr.2))
  else
    .error "MergeError: Merge keys are not unique in either left or right dataset; not a one-to-one merge"

/-- One resolved entry of `get_combined_coverage`'s per-run loop body: the
coverage id for indicator `i` of `indicator_names`, paired with its
positional height and pressure (`heights[i] if heights != [] else None`,
same for pressures), the interval being `intervals[i] if intervals else
None`.  Out-of-range indexing (impossible after the length checks) is
modelled as an `IndexError`. -/
def resolveEntry (INDICATORS INSTANT : List Str) (catalog : List CatRow)
    (heights pressures : List Int) (intervals? : Option (List Str))
    (run : Str) (i : Nat) (indicator : Str) :
    Except String (Str × Option Int × Option Int) :=
  match
    (if heights = [] then Except.ok (none : Option Int)
     else match heights[i]? with
       | some v => Except.ok (some v)
       | none => Except.error "IndexError: list index out of range") with
  | .error e => .error e
  | .ok height_value =>
    match
      (if pressures = [] then Except.ok (none : Option Int)
       else match pressures[i]? with
         | some v => Except.ok (some v)
         | none => Except.error "IndexError: list index out of range") with
    | .error e => .error e
    | .ok pressure_value =>
      match
        (match intervals? with
         | some l =>
           if l = [] then Except.ok (none : Option Str)
           else match l[i]? with
             | some v => Except.ok (some v)
             | none => Except.error "IndexError: list index out of range"
         | none => Except.ok none) with
      | .error e => .error e
      | .ok interval? =>
        match getCoverageId INDICATORS INSTANT catalog indicator (some run) interval? with
        | .error e => .error e
        | .ok coverage_id => .ok (coverage_id, height_value, pressure_value)

/-- The inner `for i, indicator in enumerate(indicator_names)` loop of
`get_combined_coverage` for one run: resolves every indicator to a
coverage id paired with its positional height and pressure. -/
def resolveRunEntries (INDICATORS INSTANT : List Str) (catalog : List CatRow)
    (indicator_names : List Str) (heights pressures : List Int)
    (intervals? : Option (List Str)) (run : Str) :
    Except String (List (Str × Option Int × Option Int)) :=
  indicator_names.enum.mapM
    (fun p => resolveEntry INDICATORS INSTANT catalog heights pressures intervals? run p.1 p.2)

/-- The horizon default of `get_combined_coverage`:
`[self.find_common_forecast_horizons(list_coverage_id)[0]]`, where
`list_coverage_id` are the coverage ids resolved for the current run.
`IndexError` models Python's `[0]` on an empty list. -/
def defaultHorizons (desc : Str → List Int)
    (entries : List (Str × Option Int × Option Int)) : Except String (List Int) :=
  match findCommonForecastHorizons desc (entries.map (·.1)) with
  | none => .error "IndexError: list index out of range"
  | some common =>
    match common with
    | [] => .error "IndexError: list index out of range"
    | h :: _ => .ok [h]

/-- The `for run in runs` loop of `get_combined_coverage` (lines 596-608):
builds `coverage_ids_by_run` in run order (runs are unique, so each run is
a fresh dict key) and, while `forecast_horizons` is still `None`, replaces
it by the singleton head of the current run's common horizons. -/
def combinedLoop (INDICATORS INSTANT : List Str) (catalog : List CatRow)
    (desc : Str → List Int) (indicator_names : List Str)
    (heights pressures : List Int) (intervals? : Option (List Str)) :
    List Str → Option (List Int) →
    Except String (List (Str × List (Str × Option Int × Option Int)) × Option (List Int))
  | [], forecast_horizons? => .ok ([], forecast_horizons?)
  | run :: rest, forecast_horizons? =>
    match resolveRunEntries INDICATORS INSTANT catalog indicator_names
        heights pressures intervals? run with
    | .error e => .error e
    | .ok entries =>
      match
        (match forecast_horizons? with
         | some l => Except.ok (some l)
         | none =>
           match defaultHorizons desc entries with
           | .error e => .error e
           | .ok fhs => .ok (some fhs)) with
      | .error e => .error e
      | .ok forecast_horizons?' =>
        match combinedLoop INDICATORS INSTANT catalog desc indicator_names
            heights pressures intervals? rest forecast_horizons?' with
        | .error e => .error e
        | .ok (tailByRun, finalHorizons?) =>
          .ok ((run, entries) :: tailByRun, finalHorizons?)

/-- The request-validation and coverage-resolution phase of
`Forecast.get_combined_coverage` (lines 573-615): duplicate-run check,
length checks of `heights` / `pressures` / `intervals` against
`indicator_names`, per-run coverage-id resolution, horizon defaulting from
the first run processed, and validation of the chosen horizons against
every resolved coverage id.  Returns `coverage_ids_by_run` (in run order)
and the final `forecast_horizons` value that the fetch phase would use. -/
def getCombinedSetup (INDICATORS INSTANT : List Str) (catalog : List CatRow)
    (desc : Str → List Int) (indicator_names runs : List Str)
    (heights? pressures? : Option (List Int)) (intervals? : Option (List Str))
    (forecast_horizons? : Option (List Int)) :
    Except String (List (Str × List (Str × Option Int × Option Int)) × Option (List Int)) :=
  if ¬ runs.Nodup then
    .error "The run in 'runs' must be different."
  else
    match
      (match heights? with
       | some l =>
         if l.length ≠ indicator_names.length then
           Except.error "The length of heights must match the length of indicator_names."
         else Except.ok l
       | none => Except.ok ([] : List Int)) with
    | .error e => .error e
    | .ok heights =>
      match
        (match pressures? with
         | some l =>
           if l.length ≠ indicator_names.length then
             Except.error "The length of pressures must match the length of indicator_names."
           else Except.ok l
         | none => Except.ok ([] : List Int)) with
      | .error e => .error e
      | .ok pressures =>
        match
          (match intervals? with
           | some l =>
             if l ≠ [] ∧ l.length ≠ indicator_names.length then
               Except.error "The length of intervals must match the length of indicator_names if provided."
             else Except.ok ()
           | none => Except.ok ()) with
        | .error e => .error e
        | .ok _ =>
          match combinedLoop INDICATORS INSTANT catalog desc indicator_names
              heights pressures intervals? runs forecast_horizons? with
          | .error e => .error e
          | .ok (byRun, forecastHorizons?) =>
            match forecastHorizons? with
            | none => .ok (byRun, none)
            | some fhs =>
              let coverage_ids := byRun.flatMap (fun rc => rc.2.map (·.1))
              if validateForecastHorizons desc coverage_ids fhs ≠ [] then
                .error "forecast_horizons are not valid for these coverage_ids"
              else .ok (byRun, some fhs)

/-- Membership is preserved by the order-preserving deduplication. -/
theorem mem_pyUnique_aux (l : List Str) :
    ∀ acc x, (x ∈ l.foldl (fun acc x => if x ∈ acc then acc else acc ++ [x]) acc)
      ↔ x ∈ acc ∨ x ∈ l := by
  induction l with
  | nil => simp
  | cons y ys ih =>
    intro acc x
    simp only [List.foldl_cons]
    by_cases hy : y ∈ acc
    · rw [if_pos hy, ih]
      constructor
      · rintro (h | h)
        · exact Or.inl h
        · exact Or.inr (List.mem_cons_of_mem _ h)
      · rintro (h | h)
        · exact Or.inl h
        · rcases List.mem_cons.mp h with rfl | h
          · exact Or.inl hy
          · exact Or.inr h
    · rw [if_neg hy, ih]
      simp only [List.mem_append, List.mem_singleton, List.mem_cons]
      tauto

/-- Membership in `pyUnique l` is membership in `l`. -/
theorem mem_pyUnique (l : List Str) (x : Str) : x ∈ pyUnique l ↔ x ∈ l := by
  rw [pyUnique, mem_pyUnique_aux]
  simp

/-- Splitting on a character that does not occur returns the whole string. -/
theorem splitOnChar_of_not_mem (sc : Char) (l : Str) (h : sc ∉ l) :
    splitOnChar sc l = [l] := by
  induction l with
  | nil => rfl
  | cons c cs ih =>
    have hc : ¬ c = sc := fun hcc => h (hcc ▸ List.mem_cons_self c cs)
    have hcs : sc ∉ cs := fun hm => h (List.mem_cons_of_mem _ hm)
    simp [splitOnChar, hc, ih hcs, glueHead]

/-- Splitting at the first occurrence of the separator character:
`a` contains no separator, so the first chunk is exactly `a`. -/
theorem splitOnChar_append (sc : Char) (a b : Str) (h : sc ∉ a) :
    splitOnChar sc (a ++ sc :: b) = a :: splitOnChar sc b := by
  induction a with
  | nil => simp [splitOnChar]
  | cons c a' ih =>
    have hc : ¬ c = sc := fun hcc => h (hcc ▸ List.mem_cons_self c a')
    have ha' : sc ∉ a' := fun hm => h (List.mem_cons_of_mem _ hm)
    simp [splitOnChar, hc, ih ha', glueHead]

/-- An infix of the tail is an infix of the whole list (contrapositive
transfer used when peeling characters off the front). -/
theorem not_infix_tail {s : Str} {c : Char} {cs : Str} (h : ¬ s <:+: c :: cs) :
    ¬ s <:+: cs :=
  fun hc => h (List.infix_cons hc)

/-- The last element is unchanged when peeling the head off a list of at
least two elements. -/
theorem getLast?_tail_ne {c : Char} {a : Str} (h : (c :: a).getLast? ≠ some '_')
    (ha : a ≠ []) : a.getLast? ≠ some '_' := by
  cases a with
  | nil => exact absurd rfl ha
  | cons x a' => rwa [List.getLast?_cons_cons] at h

/-- A nonempty sequence avoiding every character of `x` that occurs inside
`x ++ y` occurs inside `y`. -/
theorem infix_append_right {sep x y : Str} (hne : sep ≠ [])
    (hx : ∀ c ∈ sep, c ∉ x) (h : sep <:+: x ++ y) : sep <:+: y := by
  induction x with
  | nil => simpa using h
  | cons c x' ih =>
    rw [List.cons_append, List.infix_cons_iff] at h
    rcases h with h | h
    · rcases List.prefix_cons_iff.mp h with rfl | ⟨t, rfl, _⟩
      · exact absurd rfl hne
      · exact absurd (List.mem_cons_self c t) fun hm =>
          hx c (List.mem_cons_self c t) (List.mem_cons_self c x')
    · exact ih (fun d hd hdx => hx d hd (List.mem_cons_of_mem _ hdx)) h

/-- Unfolding rule for `splitTU` when the head is not an underscore. -/
theorem splitTU_cons_ne (c : Char) (cs : Str) (hc : ¬ c = '_') :
    splitTU (c :: cs) = glueHead c (splitTU cs) := by
  rw [splitTU.eq_def]
  simp [hc]

/-- Unfolding rule for `splitTU` when the first underscore is not followed
by two more underscores. -/
theorem splitTU_uu_ne (x y : Char) (rest : Str) (h : ¬ (x = '_' ∧ y = '_')) :
    splitTU ('_' :: x :: y :: rest) = glueHead '_' (splitTU (x :: y :: rest)) := by
  rw [splitTU.eq_def]
  simp [h]

/-- No triple underscore occurs in a string: splitting on `"___"` returns
the whole string. -/
theorem splitTU_of_not_infix (l : Str) (h : ¬ chars "___" <:+: l) :
    splitTU l = [l] := by
  induction l with
  | nil => rfl
  | cons c cs ih =>
    have hcs : ¬ chars "___" <:+: cs := not_infix_tail h
    by_cases hc : c = '_'
    · subst hc
      rcases cs with _ | ⟨x, _ | ⟨y, rest⟩⟩
      · rfl
      · rw [show splitTU ['_', x] = glueHead '_' (splitTU [x]) from rfl, ih hcs]
        rfl
      · have hxy : ¬ (x = '_' ∧ y = '_') := by
          rintro ⟨rfl, rfl⟩
          exact h ⟨[], rest, rfl⟩
        rw [splitTU_uu_ne x y rest hxy, ih hcs]
        rfl
    · rw [splitTU_cons_ne c cs hc, ih hcs]
      rfl

/-- Splitting `a ++ "___" ++ b` on `"___"` when `a` holds no triple
underscore and does not end with an underscore: the first chunk is `a`
and the rest of the split continues after the separator. -/
theorem splitTU_append (a b : Str) (h1 : ¬ chars "___" <:+: a)
    (h2 : a.getLast? ≠ some '_') :
    splitTU (a ++ chars "___" ++ b) = a :: splitTU b := by
  induction a with
  | nil =>
    show splitTU ('_' :: '_' :: '_' :: b) = [] :: splitTU b
    rfl
  | cons c a' ih =>
    have step : splitTU (c :: (a' ++ chars "___" ++ b))
        = glueHead c (splitTU (a' ++ chars "___" ++ b)) := by
      by_cases hc : c = '_'
      · subst hc
        rcases a' with _ | ⟨x, _ | ⟨y, a''⟩⟩
        · exact absurd rfl h2
        · have hx : ¬ x = '_' := by
            intro hxe
            subst hxe
            exact h2 rfl
          show splitTU ('_' :: x :: '_' :: ('_' :: '_' :: b))
              = glueHead '_' (splitTU (x :: '_' :: ('_' :: '_' :: b)))
          exact splitTU_uu_ne x '_' _ (fun hxy => hx hxy.1)
        · have hxy : ¬ (x = '_' ∧ y = '_') := by
            rintro ⟨rfl, rfl⟩
            exact h1 ⟨[], a'', rfl⟩
          show splitTU ('_' :: x :: y :: (a'' ++ chars "___" ++ b))
              = glueHead '_' (splitTU (x :: y :: (a'' ++ chars "___" ++ b)))
          exact splitTU_uu_ne x y _ hxy
      · exact splitTU_cons_ne c _ hc
    have h2' : a'.getLast? ≠ some '_' := by
      rcases a' with _ | ⟨z, a''⟩
      · simp
      · rwa [List.getLast?_cons_cons] at h2
    rw [List.cons_append, List.cons_append, step, ih (not_infix_tail h1) h2']
    rfl

/-- A character admissible before position 19 of a valid run timestamp is
neither `Z` nor an underscore. -/
theorem chOk_before_end (i : Nat) (c : Char) (hi : i < 19) (h : chOk i c = true) :
    ¬ c = 'Z' ∧ ¬ c = '_' := by
  by_cases h4 : i = 4 ∨ i = 7
  · simp [chOk, sepAt, h4] at h
    subst h
    exact ⟨by decide, by decide⟩
  · by_cases h10 : i = 10
    · simp [chOk, sepAt, h4, h10] at h
      subst h
      exact ⟨by decide, by decide⟩
    · by_cases h13 : i = 13 ∨ i = 16
      · simp [chOk, sepAt, h4, h10, h13] at h
        subst h
        exact ⟨by decide, by decide⟩
      · have h19 : ¬ i = 19 := by omega
        simp [chOk, sepAt, h4, h10, h13, h19] at h
        refine ⟨fun he => ?_, fun he => ?_⟩ <;>
          (subst he; exact absurd h (by decide))

/-- Structure of a string accepted by the run-format check: a body of
non-`Z`, non-underscore characters followed by a final `Z`. -/
theorem validRun_structure (run : Str) (h : validRunFormat run = true) :
    ∃ body, run = body ++ ['Z'] ∧ ∀ c ∈ body, ¬ c = 'Z' ∧ ¬ c = '_' := by
  have hshape : validRunShape run = true := by
    have := h
    unfold validRunFormat at this
    exact (Bool.and_eq_true _ _ |>.mp this).1
  unfold validRunShape at hshape
  obtain ⟨hlen', hall'⟩ := Bool.and_eq_true _ _ |>.mp hshape
  have hlen : run.length = 20 := by simpa using hlen'
  have hall : ∀ i, i < 20 → chOk i (run.getD i ' ') = true := by
    intro i hi
    have := List.all_eq_true.mp hall' i (List.mem_range.mpr hi)
    simpa using this
  have hdlen : (run.drop 19).length = 1 := by
    rw [List.length_drop, hlen]
  obtain ⟨z, hz⟩ := List.length_eq_one.mp hdlen
  have h19 : run[19]? = some z := by
    have hd := List.getElem?_drop run 19 0
    rw [hz] at hd
    simpa using hd.symm
  have hgetD : run.getD 19 ' ' = z := by
    simp [List.getD_eq_getElem?_getD, h19]
  have hzZ : z = 'Z' := by
    have := hall 19 (by omega)
    rw [hgetD] at this
    simpa [chOk, sepAt] using this
  subst hzZ
  refine ⟨run.take 19, ?_, ?_⟩
  · conv_lhs => rw [← List.take_append_drop 19 run]
    rw [hz]
  · intro c hc
    obtain ⟨i, hig⟩ := List.mem_iff_getElem?.mp hc
    rw [List.getElem?_take] at hig
    by_cases hilt : i < 19
    · rw [if_pos hilt] at hig
      have hgd : run.getD i ' ' = c := by
        simp [List.getD_eq_getElem?_getD, hig]
      have := hall i (by omega)
      rw [hgd] at this
      exact chOk_before_end i c hilt this
    · rw [if_neg hilt] at hig
      exact absurd hig (by simp)

/-- No underscore occurs in a string accepted by the run-format check. -/
theorem validRun_no_underscore (run : Str) (h : validRunFormat run = true) :
    '_' ∉ run := by
  obtain ⟨body, rfl, hbody⟩ := validRun_structure run h
  intro hmem
  rcases List.mem_append.mp hmem with hmem | hmem
  · exact (hbody _ hmem).2 rfl
  · simp at hmem

/-- `dropWhile` strips nothing when the head does not satisfy it. -/
theorem dropWhile_underscore_of_head (l : Str) (h : l.head? ≠ some '_') :
    l.dropWhile (· = '_') = l := by
  cases l with
  | nil => rfl
  | cons x xs =>
    have hx : ¬ x = '_' := fun he => h (by rw [he]; rfl)
    simp [List.dropWhile_cons, hx]

/-- `"_" + iv`.strip("_")` recovers `iv` when `iv` neither starts nor
ends with an underscore. -/
theorem stripChar_cons_underscore (iv : Str) (h1 : iv.head? ≠ some '_')
    (h2 : iv.getLast? ≠ some '_') : stripChar '_' ('_' :: iv) = iv := by
  unfold stripChar
  have hdrop : ('_' :: iv).dropWhile (· = '_') = iv.dropWhile (· = '_') := by
    simp [List.dropWhile_cons]
  rw [hdrop, dropWhile_underscore_of_head iv h1]
  have hrev : iv.reverse.head? ≠ some '_' := by
    rw [List.head?_reverse]
    exact h2
  rw [dropWhile_underscore_of_head _ hrev, List.reverse_reverse]

/-- No triple underscore occurs in `run ++ tail` when `run` is underscore
free and `tail` is `[]` or an underscore followed by an interval that
neither starts with an underscore nor contains a triple underscore. -/
theorem not_infix_run_tail (run tail : Str) (hrun : '_' ∉ run)
    (htail : tail = [] ∨ ∃ iv, tail = '_' :: iv ∧ iv.head? ≠ some '_'
      ∧ ¬ chars "___" <:+: iv) :
    ¬ chars "___" <:+: run ++ tail := by
  intro hinf
  have htailinf : chars "___" <:+: tail := by
    refine infix_append_right (by decide) ?_ hinf
    intro c hcin
    have hcin' : c ∈ ['_', '_', '_'] := hcin
    have hcu : c = '_' := by simpa using hcin'
    rw [hcu]
    exact hrun
  rcases htail with rfl | ⟨iv, rfl, hhead, hinfiv⟩
  · rcases htailinf with ⟨s, t, hst⟩
    simp [chars] at hst
  · rcases List.infix_cons_iff.mp htailinf with hpre | hinf2
    · rcases List.prefix_cons_iff.mp hpre with habs | ⟨t, hts, htp⟩
      · cases habs
      · have ht2 : t = ['_', '_'] := by
          have : chars "___" = '_' :: '_' :: '_' :: [] := rfl
          rw [this] at hts
          exact (List.cons.injEq _ _ _ _).mp hts |>.2.symm ▸ rfl
        subst ht2
        obtain ⟨t3, ht3⟩ := htp
        rw [← ht3] at hhead
        simp at hhead
    · exact hinfiv hinf2

/-- The catalog's splitting rule applied to a composed coverage id with no
interval suffix: it recovers the indicator, the run and the empty
interval. -/
theorem decomposeId_no_interval (ind run body : Str)
    (hInd1 : ¬ chars "___" <:+: ind) (hInd2 : ind.getLast? ≠ some '_')
    (hrun : run = body ++ ['Z']) (hbody : ∀ c ∈ body, ¬ c = 'Z' ∧ ¬ c = '_') :
    decomposeId (ind ++ chars "___" ++ run) = some (ind, run, []) := by
  have hZbody : 'Z' ∉ body := fun hm => (hbody _ hm).1 rfl
  have hUrun : '_' ∉ run := by
    intro hm
    rw [hrun] at hm
    rcases List.mem_append.mp hm with hm | hm
    · exact (hbody _ hm).2 rfl
    · simp at hm
  have hparts : splitTU (ind ++ chars "___" ++ run) = [ind, run] := by
    rw [splitTU_append ind run hInd1 hInd2,
      splitTU_of_not_infix run (by
        have := not_infix_run_tail run [] hUrun (Or.inl rfl)
        simpa using this)]
  have hzs : splitOnChar 'Z' run = [body, []] := by
    rw [hrun, show body ++ ['Z'] = body ++ 'Z' :: [] from rfl,
      splitOnChar_append 'Z' body [] hZbody]
    rfl
  simp only [decomposeId]
  rw [hparts]
  simp [hzs, stripChar, ← hrun]

/-- The catalog's splitting rule applied to a composed coverage id with an
interval suffix: it recovers the indicator, the run and the interval. -/
theorem decomposeId_with_interval (ind run body iv : Str)
    (hInd1 : ¬ chars "___" <:+: ind) (hInd2 : ind.getLast? ≠ some '_')
    (hrun : run = body ++ ['Z']) (hbody : ∀ c ∈ body, ¬ c = 'Z' ∧ ¬ c = '_')
    (hivZ : 'Z' ∉ iv) (hivh : iv.head? ≠ some '_') (hivl : iv.getLast? ≠ some '_')
    (hivinf : ¬ chars "___" <:+: iv) :
    decomposeId (ind ++ chars "___" ++ run ++ '_' :: iv) = some (ind, run, iv) := by
  have hZbody : 'Z' ∉ body := fun hm => (hbody _ hm).1 rfl
  have hUrun : '_' ∉ run := by
    intro hm
    rw [hrun] at hm
    rcases List.mem_append.mp hm with hm | hm
    · exact (hbody _ hm).2 rfl
    · simp at hm
  have hassoc : ind ++ chars "___" ++ run ++ '_' :: iv
      = (ind ++ chars "___") ++ (run ++ '_' :: iv) := by
    simp [List.append_assoc]
  have hparts : splitTU (ind ++ chars "___" ++ run ++ '_' :: iv)
      = [ind, run ++ '_' :: iv] := by
    rw [hassoc, splitTU_append ind (run ++ '_' :: iv) hInd1 hInd2,
      splitTU_of_not_infix (run ++ '_' :: iv)
        (not_infix_run_tail run ('_' :: iv) hUrun (Or.inr ⟨iv, rfl, hivh, hivinf⟩))]
  have hzs : splitOnChar 'Z' (run ++ '_' :: iv) = [body, '_' :: iv] := by
    rw [hrun, show (body ++ ['Z']) ++ '_' :: iv = body ++ 'Z' :: ('_' :: iv) by
        simp [List.append_assoc],
      splitOnChar_append 'Z' body ('_' :: iv) hZbody,
      splitOnChar_of_not_mem 'Z' ('_' :: iv) (by
        intro hm
        rcases List.mem_cons.mp hm with hm | hm
        · cases hm
        · exact hivZ hm)]
  simp only [decomposeId]
  rw [hparts]
  simp [hzs, stripChar_cons_underscore iv hivh hivl, ← hrun]

/-- Elimination of a successful resolution with an explicit run: the run
passed the format check and the coverage id has the composed shape, with
the interval suffix determined by the instant / non-instant branch. -/
theorem getCoverageId_ok_elim (INDICATORS INSTANT : List Str)
    (catalog : List CatRow) (ind run : Str) (iv? : Option Str) (cid : Str)
    (h : getCoverageId INDICATORS INSTANT catalog ind (some run) iv? = .ok cid) :
    validRunFormat run = true ∧
      ((ind ∈ INSTANT ∧ iv? = none ∧ cid = ind ++ chars "___" ++ run) ∨
       (ind ∉ INSTANT ∧ ∃ ivR, cid = ind ++ chars "___" ++ run ++ '_' :: ivR ∧
         ((iv? = none ∧ ivR = chars "P1D") ∨ iv? = some ivR))) := by
  simp only [getCoverageId] at h
  split at h
  · simp at h
  · split at h
    · next hfmt => simp at h
    · next hfmt =>
      rw [Decidable.not_not] at hfmt
      refine ⟨hfmt, ?_⟩
      split at h
      · simp at h
      · split at h
        · simp at h
        · next interval hIv =>
          split at h
          · next iv =>
            simp only [Except.ok.injEq] at h
            subst h
            split at hIv
            · next hInst =>
              split at hIv
              · simp at hIv
              · simp at hIv
            · next hInst =>
              split at hIv
              · next hivnone =>
                simp only [Except.ok.injEq, Option.some.injEq] at hIv
                exact Or.inr ⟨hInst, iv, rfl, Or.inl ⟨rfl, hIv.symm⟩⟩
              · next iv2 hivsome =>
                split at hIv
                · simp only [Except.ok.injEq, Option.some.injEq] at hIv
                  exact Or.inr ⟨hInst, iv, rfl, Or.inr (by rw [hIv])⟩
                · simp at hIv
          · simp only [Except.ok.injEq] at h
            subst h
            split at hIv
            · next hInst =>
              split at hIv
              · next hivnone => exact Or.inl ⟨hInst, rfl, rfl⟩
              · simp at hIv
            · next hInst =>
              split at hIv
              · simp at hIv
              · split at hIv
                · simp at hIv
                · simp at hIv

/-- C4 counterexample: the round trip fails for an accepted triple whose
indicator ends with an underscore.  With `INDICATORS = ["X_"]` and a
catalog row for `X_`, the resolver accepts
`("X_", "2024-01-01T00.00.00Z", None)` and produces
`X____2024-01-01T00.00.00Z`, but the catalog's identifier-splitting rule
re-decomposes that id into indicator `"X"` and run
`"_2024-01-01T00.00.00Z"`, not the original pair. -/
theorem C4_round_trip_counterexample :
    getCoverageId [chars "X_"] [chars "X_"]
        [⟨chars "X_", chars "2024-01-01T00.00.00Z", []⟩]
        (chars "X_") (some (chars "2024-01-01T00.00.00Z")) none
      = .ok (chars "X____2024-01-01T00.00.00Z") ∧
    decomposeId (chars "X____2024-01-01T00.00.00Z")
      = some (chars "X", chars "_2024-01-01T00.00.00Z", []) ∧
    decomposeId (chars "X____2024-01-01T00.00.00Z")
      ≠ some (chars "X_", chars "2024-01-01T00.00.00Z", []) := by
  exact ⟨rfl, rfl, by decide⟩

/-- C4 (amended): for every (indicator, run, interval) triple accepted by
the resolver — provided additionally that the indicator contains no triple
underscore and does not end with an underscore, and that a provided
interval contains no `Z`, no triple underscore, and neither starts nor
ends with an underscore — the produced coverage id is re-decomposed by the
catalog's identifier-splitting rule into the same indicator, the same run,
and the same interval (the empty interval for an instant indicator, the
`P1D` default when none was provided to a non-instant indicator). -/
theorem C4_round_trip (INDICATORS INSTANT : List Str) (catalog : List CatRow)
    (ind run : Str) (iv? : Option Str) (cid : Str)
    (hok : getCoverageId INDICATORS INSTANT catalog ind (some run) iv? = .ok cid)
    (hInd1 : ¬ chars "___" <:+: ind) (hInd2 : ind.getLast? ≠ some '_')
    (hiv : ∀ iv, iv? = some iv → 'Z' ∉ iv ∧ iv.head? ≠ some '_' ∧
      iv.getLast? ≠ some '_' ∧ ¬ chars "___" <:+: iv) :
    decomposeId cid
      = some (ind, run, if ind ∈ INSTANT then [] else iv?.getD (chars "P1D")) := by
  obtain ⟨hfmt, hcase⟩ := getCoverageId_ok_elim _ _ _ _ _ _ _ hok
  obtain ⟨body, hrun, hbody⟩ := validRun_structure run hfmt
  rcases hcase with ⟨hInst, hivnone, rfl⟩ | ⟨hInst, ivR, rfl, hivR⟩
  · rw [if_pos hInst]
    exact decomposeId_no_interval ind run body hInd1 hInd2 hrun hbody
  · rw [if_neg hInst]
    rcases hivR with ⟨rfl, rfl⟩ | hsome
    · exact decomposeId_with_interval ind run body (chars "P1D") hInd1 hInd2 hrun
        hbody (by decide) (by decide) (by decide) (by decide)
    · obtain ⟨hZ, hh, hl, hinf⟩ := hiv ivR hsome
      rw [hsome]
      exact decomposeId_with_interval ind run body ivR hInd1 hInd2 hrun hbody
        hZ hh hl hinf

/-- Witness for the amended C4 round trip at a concrete non-instant
indicator with an explicit `P1D` interval. -/
theorem C4_round_trip_witness :
    getCoverageId [chars "TOTAL_PRECIPITATION"] []
        [⟨chars "TOTAL_PRECIPITATION", chars "2024-01-01T00.00.00Z", chars "P1D"⟩]
        (chars "TOTAL_PRECIPITATION") (some (chars "2024-01-01T00.00.00Z"))
        (some (chars "P1D"))
      = .ok (chars "TOTAL_PRECIPITATION___2024-01-01T00.00.00Z_P1D") ∧
    decomposeId (chars "TOTAL_PRECIPITATION___2024-01-01T00.00.00Z_P1D")
      = some (chars "TOTAL_PRECIPITATION", chars "2024-01-01T00.00.00Z",
          chars "P1D") := by
  constructor
  · rfl
  · have h := C4_round_trip [chars "TOTAL_PRECIPITATION"] []
      [⟨chars "TOTAL_PRECIPITATION", chars "2024-01-01T00.00.00Z", chars "P1D"⟩]
      (chars "TOTAL_PRECIPITATION") (chars "2024-01-01T00.00.00Z")
      (some (chars "P1D")) (chars "TOTAL_PRECIPITATION___2024-01-01T00.00.00Z_P1D")
      rfl (by decide) (by decide)
      (fun iv hiveq => by
        cases hiveq
        exact ⟨by decide, by decide, by decide, by decide⟩)
    simpa using h

/-- C1 counterexample: with a catalog whose first row for indicator `T`
carries run `2024-01-01T00.00.00Z` while a later row carries the
lexicographically larger run `2024-01-02T00.00.00Z`, resolving `T` with
`run=None` yields a coverage id built from the first row's run
(`capabilities.iloc[0]["run"]`), not from the lexicographic maximum of the
catalog's runs for `T`. -/
theorem C1_default_run_counterexample :
    getCoverageId [chars "T"] [chars "T"]
        [⟨chars "T", chars "2024-01-01T00.00.00Z", []⟩,
         ⟨chars "T", chars "2024-01-02T00.00.00Z", []⟩]
        (chars "T") none none
      = .ok (chars "T" ++ chars "___" ++ chars "2024-01-01T00.00.00Z") ∧
    lexMax (([⟨chars "T", chars "2024-01-01T00.00.00Z", []⟩,
         ⟨chars "T", chars "2024-01-02T00.00.00Z", []⟩] :
        List CatRow).filter (fun r => r.indicator = chars "T")
          |>.map (·.run))
      = chars "2024-01-02T00.00.00Z" ∧
    chars "T" ++ chars "___" ++ chars "2024-01-01T00.00.00Z"
      ≠ chars "T" ++ chars "___" ++ chars "2024-01-02T00.00.00Z" := by
  exact ⟨rfl, rfl, by decide⟩

/-- C1 (amended): with `run=None`, the resolver defaults the run to the
run of the first catalog row for that indicator
(`capabilities.iloc[0]["run"]`): the resolution behaves exactly as if that
run had been passed explicitly.  It coincides with the lexicographic
maximum only when the catalog lists that indicator's latest run first. -/
theorem C1_default_run (INDICATORS INSTANT : List Str) (catalog : List CatRow)
    (ind : Str) (iv? : Option Str) (row0 : CatRow)
    (hhead : (catalog.filter (fun r => r.indicator = ind)).head? = some row0) :
    getCoverageId INDICATORS INSTANT catalog ind none iv?
      = getCoverageId INDICATORS INSTANT catalog ind (some row0.run) iv? := by
  simp only [getCoverageId, hhead]

/-- Witness for the amended C1 default-run behaviour on a concrete
two-run catalog. -/
theorem C1_default_run_witness :
    getCoverageId [chars "T"] [chars "T"]
        [⟨chars "T", chars "2024-01-01T00.00.00Z", []⟩,
         ⟨chars "T", chars "2024-01-02T00.00.00Z", []⟩]
        (chars "T") none none
      = getCoverageId [chars "T"] [chars "T"]
        [⟨chars "T", chars "2024-01-01T00.00.00Z", []⟩,
         ⟨chars "T", chars "2024-01-02T00.00.00Z", []⟩]
        (chars "T") (some (chars "2024-01-01T00.00.00Z")) none :=
  C1_default_run [chars "T"] [chars "T"]
    [⟨chars "T", chars "2024-01-01T00.00.00Z", []⟩,
     ⟨chars "T", chars "2024-01-02T00.00.00Z", []⟩]
    (chars "T") none ⟨chars "T", chars "2024-01-01T00.00.00Z", []⟩ rfl

/-- C5: interval policy of the coverage-id resolver, for an indicator in
the static list and a run that passes the format check and occurs in the
catalog for that indicator: (a) an instant indicator with a provided
interval is an error; (b) an instant indicator with `interval=None` is
accepted with no interval suffix; (c) a non-instant indicator with
`interval=None` defaults to `P1D`, suffixing `_P1D`; (d) a non-instant
indicator with a provided interval not among the catalog's intervals for
that indicator is an error. -/
theorem C5_interval_policy (INDICATORS INSTANT : List Str)
    (catalog : List CatRow) (ind run : Str)
    (hind : ind ∈ INDICATORS)
    (hfmt : validRunFormat run = true)
    (hrunmem : run ∈ (catalog.filter (fun r => r.indicator = ind)).map (·.run)) :
    (ind ∈ INSTANT → ∀ iv, ∃ e,
      getCoverageId INDICATORS INSTANT catalog ind (some run) (some iv) = .error e) ∧
    (ind ∈ INSTANT →
      getCoverageId INDICATORS INSTANT catalog ind (some run) none
        = .ok (ind ++ chars "___" ++ run)) ∧
    (ind ∉ INSTANT →
      getCoverageId INDICATORS INSTANT catalog ind (some run) none
        = .ok (ind ++ chars "___" ++ run ++ '_' :: chars "P1D")) ∧
    (ind ∉ INSTANT → ∀ iv,
      iv ∉ (catalog.filter (fun r => r.indicator = ind)).map (·.interval) → ∃ e,
      getCoverageId INDICATORS INSTANT catalog ind (some run) (some iv) = .error e) := by
  have hmem : run ∈ pyUnique ((catalog.filter (fun r => r.indicator = ind)).map (·.run)) :=
    (mem_pyUnique _ _).mpr hrunmem
  refine ⟨?_, ?_, ?_, ?_⟩
  · intro hInst iv
    refine ⟨"interval is invalid. No interval is expected for instant indicator.", ?_⟩
    simp [getCoverageId, hind, hfmt, hmem, hInst]
  · intro hInst
    simp [getCoverageId, hind, hfmt, hmem, hInst]
  · intro hInst
    simp [getCoverageId, hind, hfmt, hmem, hInst]
  · intro hInst iv hivmem
    have hivu : iv ∉ pyUnique ((catalog.filter (fun r => r.indicator = ind)).map (·.interval)) :=
      fun hm => hivmem ((mem_pyUnique _ _).mp hm)
    refine ⟨"interval is invalid for non-instant indicators.", ?_⟩
    simp [getCoverageId, hind, hfmt, hmem, hInst, hivu]

/-- Witness for the C5 interval policy: an instant indicator `T` and a
non-instant indicator `TP` over a concrete catalog, exercising all four
branches. -/
theorem C5_interval_policy_witness :
    (getCoverageId [chars "T", chars "TP"] [chars "T"]
        [⟨chars "T", chars "2024-01-01T00.00.00Z", []⟩,
         ⟨chars "TP", chars "2024-01-01T00.00.00Z", chars "P1D"⟩]
        (chars "T") (some (chars "2024-01-01T00.00.00Z")) (some (chars "P1D"))).isOk
      = false ∧
    getCoverageId [chars "T", chars "TP"] [chars "T"]
        [⟨chars "T", chars "2024-01-01T00.00.00Z", []⟩,
         ⟨chars "TP", chars "2024-01-01T00.00.00Z", chars "P1D"⟩]
        (chars "T") (some (chars "2024-01-01T00.00.00Z")) none
      = .ok (chars "T" ++ chars "___" ++ chars "2024-01-01T00.00.00Z") ∧
    getCoverageId [chars "T", chars "TP"] [chars "T"]
        [⟨chars "T", chars "2024-01-01T00.00.00Z", []⟩,
         ⟨chars "TP", chars "2024-01-01T00.00.00Z", chars "P1D"⟩]
        (chars "TP") (some (chars "2024-01-01T00.00.00Z")) none
      = .ok (chars "TP" ++ chars "___" ++ chars "2024-01-01T00.00.00Z"
          ++ '_' :: chars "P1D") ∧
    (getCoverageId [chars "T", chars "TP"] [chars "T"]
        [⟨chars "T", chars "2024-01-01T00.00.00Z", []⟩,
         ⟨chars "TP", chars "2024-01-01T00.00.00Z", chars "P1D"⟩]
        (chars "TP") (some (chars "2024-01-01T00.00.00Z")) (some (chars "PT6H"))).isOk
      = false := by
  obtain ⟨ha, hb, -, -⟩ := C5_interval_policy [chars "T", chars "TP"] [chars "T"]
    [⟨chars "T", chars "2024-01-01T00.00.00Z", []⟩,
     ⟨chars "TP", chars "2024-01-01T00.00.00Z", chars "P1D"⟩]
    (chars "T") (chars "2024-01-01T00.00.00Z")
    (by decide) (by decide) (by decide)
  obtain ⟨-, -, hc, hd⟩ := C5_interval_policy [chars "T", chars "TP"] [chars "T"]
    [⟨chars "T", chars "2024-01-01T00.00.00Z", []⟩,
     ⟨chars "TP", chars "2024-01-01T00.00.00Z", chars "P1D"⟩]
    (chars "TP") (chars "2024-01-01T00.00.00Z")
    (by decide) (by decide) (by decide)
  refine ⟨?_, hb (by decide), hc (by decide), ?_⟩
  · obtain ⟨e, he⟩ := ha (by decide) (chars "P1D")
    rw [he]
    rfl
  · obtain ⟨e, he⟩ := hd (by decide) (chars "PT6H") (by decide)
    rw [he]
    rfl

/-- The successive membership filters of the common-horizon loop equal one
filter by membership in every later list. -/
theorem foldl_filter_eq (lists : List (List Int)) :
    ∀ first : List Int,
      lists.foldl (fun common times => common.filter (fun t => t ∈ times)) first
        = first.filter (fun t => lists.all (fun L => t ∈ L)) := by
  induction lists with
  | nil =>
    intro first
    simp
  | cons L ls ih =>
    intro first
    simp only [List.foldl_cons]
    rw [ih, List.filter_filter]
    apply List.filter_congr
    intro a _
    simp [Bool.and_comm]

/-- C7: `find_common_forecast_horizons` computes the pairwise intersection
of the per-coverage horizon lists (filtering the first list by membership
in each later one, preserving its order) and sorts the result: on a
nonempty input the result exists, is sorted, and holds exactly the values
present in every coverage's horizon list; in particular for coverages `A`
with horizons `[0,1,2,3]` and `B` with `[1,2,4]` it returns `[1,2]`. -/
theorem C7_find_common_forecast_horizons (desc : Str → List Int) (c : Str)
    (cs : List Str) :
    (∃ l, findCommonForecastHorizons desc (c :: cs) = some l ∧
      l.Sorted (· ≤ ·) ∧
      ∀ x : Int, x ∈ l ↔ (x ∈ desc c ∧ ∀ b ∈ cs, x ∈ desc b)) ∧
    findCommonForecastHorizons
      (fun cid => if cid = chars "A" then [0, 1, 2, 3]
        else if cid = chars "B" then [1, 2, 4] else [])
      [chars "A", chars "B"] = some [1, 2] := by
  constructor
  · refine ⟨_, rfl, List.sorted_insertionSort _ _, ?_⟩
    intro x
    rw [List.mem_insertionSort, foldl_filter_eq, List.mem_filter]
    simp
  · rfl

/-- C8: `validate_forecast_horizons` returns exactly the sublist of
`coverage_ids` (in input order) whose available horizon lists do not
contain every requested horizon; in particular for requested horizons
`[1,2,5]` against `A` with `[0,1,2,3]` and `B` with `[1,2,4]` it returns
both ids. -/
theorem C8_validate_forecast_horizons (desc : Str → List Int)
    (coverage_ids : List Str) (forecast_horizons : List Int) :
    validateForecastHorizons desc coverage_ids forecast_horizons
      = coverage_ids.filter
          (fun cid => ¬ ∀ h ∈ forecast_horizons, h ∈ desc cid) ∧
    validateForecastHorizons
      (fun cid => if cid = chars "A" then [0, 1, 2, 3]
        else if cid = chars "B" then [1, 2, 4] else [])
      [chars "A", chars "B"] [1, 2, 5] = [chars "A", chars "B"] := by
  constructor
  · unfold validateForecastHorizons getForecastHorizonsList
    induction coverage_ids with
    | nil => rfl
    | cons c cs ih =>
      simp only [List.map_cons, List.zip_cons_cons, List.filter_cons]
      by_cases hc : ∀ h ∈ forecast_horizons, h ∈ desc c
      · rw [if_neg (by simpa using hc), if_neg (by simpa [List.all_eq_true] using hc)]
        exact ih
      · rw [if_pos (by simpa using hc), if_pos (by simpa [List.all_eq_true] using hc)]
        simpa using ih
  · rfl

/-- Under unique join keys on the right, filtering the right table by one
key present in it yields exactly one row. -/
theorem filter_key_length_one {K V : Type} [DecidableEq K]
    (right : List (K × List V)) (k : K)
    (hR : (right.map Prod.fst).Nodup) (hmem : k ∈ right.map Prod.fst) :
    (right.filter fun rr => rr.1 = k).length = 1 := by
  induction right with
  | nil => simp at hmem
  | cons r rs ih =>
    simp only [List.map_cons, List.nodup_cons] at hR
    by_cases hk : r.1 = k
    · rw [List.filter_cons, if_pos (by simpa using hk)]
      have hnil : (rs.filter fun rr => rr.1 = k).length = 0 := by
        rw [List.length_eq_zero, List.filter_eq_nil_iff]
        intro a ha hp
        apply hR.1
        rw [hk]
        have : a.1 = k := by simpa using hp
        rw [← this]
        exact List.mem_map_of_mem Prod.fst ha
      simp [hnil]
    · rw [List.filter_cons, if_neg (by simpa using hk)]
      rw [List.map_cons] at hmem
      rcases List.mem_cons.mp hmem with heq | hmem2
      · exact absurd heq.symm hk
      · exact ih hR.2 hmem2

/-- Length of the key-matching inner join under unique right keys that
cover every left key: one output row per left row. -/
theorem innerJoin_length {K V : Type} [DecidableEq K]
    (left right : List (K × List V))
    (hR : (right.map Prod.fst).Nodup)
    (hsub : ∀ kv ∈ left, kv.1 ∈ right.map Prod.fst) :
    (left.flatMap fun lr => (right.filter fun rr => rr.1 = lr.1).map
      fun rr => (lr.1, lr.2 ++ rr.2)).length = left.length := by
  induction left with
  | nil => rfl
  | cons lr ls ih =>
    simp only [List.flatMap_cons, List.length_append, List.length_map]
    rw [ih (fun kv hkv => hsub kv (List.mem_cons_of_mem _ hkv)),
      filter_key_length_one right lr.1 hR (hsub lr (List.mem_cons_self _ _))]
    simp [Nat.add_comm]

/-- C3: the per-run indicator tables of `get_combined_coverage` are
reduced by `pd.merge(..., how="inner", validate="one_to_one")` on the four
key columns.  For two tables whose join-key sets are identical and whose
keys are unique on both sides (the one-to-one contract; the measurement
payloads, disjoint by assumption, are concatenated), the join succeeds and
the output has exactly the input row count — no duplication or loss — and
any violation of the one-to-one property (duplicate keys on either side)
aborts with a `MergeError` instead of being silently tolerated. -/
theorem C3_one_to_one_join {K V : Type} [DecidableEq K]
    (left right : List (K × List V)) :
    ((left.map Prod.fst).Nodup → (right.map Prod.fst).Nodup →
      (∀ k, k ∈ left.map Prod.fst ↔ k ∈ right.map Prod.fst) →
      ∃ t, pdMergeOneToOne left right = .ok t ∧
        t.length = left.length ∧ t.length = right.length) ∧
    (¬ ((left.map Prod.fst).Nodup ∧ (right.map Prod.fst).Nodup) →
      ∃ e, pdMergeOneToOne left right = .error e) := by
  constructor
  · intro hL hR hEq
    refine ⟨_, by rw [pdMergeOneToOne, if_pos ⟨hL, hR⟩], ?_, ?_⟩
    · exact innerJoin_length left right hR
        (fun kv hkv => (hEq kv.1).mp (List.mem_map_of_mem Prod.fst hkv))
    · rw [innerJoin_length left right hR
        (fun kv hkv => (hEq kv.1).mp (List.mem_map_of_mem Prod.fst hkv))]
      have hperm : (left.map Prod.fst).Perm (right.map Prod.fst) :=
        (List.perm_ext_iff_of_nodup hL hR).mpr hEq
      have := hperm.length_eq
      simpa using this
  · intro hbad
    exact ⟨_, by rw [pdMergeOneToOne, if_neg hbad]⟩

/-- Witness for the C3 one-to-one join on concrete two-row tables with
identical key sets (in different orders) and on a duplicate-key left
table. -/
theorem C3_one_to_one_join_witness :
    (∃ t, pdMergeOneToOne [((0 : Nat), [(10 : Int)]), (1, [20])]
        [(1, [21]), (0, [11])] = .ok t ∧
      t.length = [((0 : Nat), [(10 : Int)]), (1, [20])].length ∧
      t.length = [((1 : Nat), [(21 : Int)]), (0, [11])].length) ∧
    (∃ e, pdMergeOneToOne [((0 : Nat), [(10 : Int)]), (0, [20])]
        [(1, [21]), (0, [11])] = .error e) := by
  constructor
  · exact (C3_one_to_one_join [((0 : Nat), [(10 : Int)]), (1, [20])]
      [(1, [21]), (0, [11])]).1 (by decide) (by decide) (by intro k; simp; tauto)
  · exact (C3_one_to_one_join [((0 : Nat), [(10 : Int)]), (0, [20])]
      [(1, [21]), (0, [11])]).2 (by decide)

/-- Mapping a two-argument function over the Cartesian product of two
lists equals the nested loop with the first list outermost. -/
theorem map_product_flatMap {α β γ : Type} (f : α → β → γ)
    (l1 : List α) (l2 : List β) :
    (l1.product l2).map (fun t => f t.1 t.2) = l1.flatMap fun a => l2.map (f a) := by
  induction l1 with
  | nil => rfl
  | cons a l ih =>
    simp only [List.product] at ih ⊢
    simp [List.flatMap_cons, List.map_map, Function.comp, ih]

/-- C9: the fetch-and-concatenate step of `get_coverage` iterates the full
Cartesian product of (forecast_horizon, pressure, height) — horizon loop
outermost, then pressure, then height — fetching one table per
combination and concatenating the rows in that iteration order, with the
`-1` sentinel of an inapplicable height or pressure axis translated to
`None` before the fetch. -/
theorem C9_cartesian_product {Row : Type}
    (fetch : Int → Option Int → Option Int → List Row)
    (heights pressures forecast_horizons : List Int) :
    getCoverageConcat fetch heights pressures forecast_horizons
      = ((forecast_horizons.product (pressures.product heights)).map
          (fun t => fetch t.1
            (if t.2.2 = -1 then none else some t.2.2)
            (if t.2.1 = -1 then none else some t.2.1))).flatten := by
  unfold getCoverageConcat
  congr 1
  rw [map_product_flatMap (fun fh ph =>
    fetch fh (if ph.2 = -1 then none else some ph.2)
      (if ph.1 = -1 then none else some ph.1)) forecast_horizons
      (pressures.product heights)]
  have hinner : ∀ fh : Int,
      (pressures.flatMap fun pressure => heights.map fun height =>
        fetch fh (if height = -1 then none else some height)
          (if pressure = -1 then none else some pressure))
      = (pressures.product heights).map (fun ph =>
          fetch fh (if ph.2 = -1 then none else some ph.2)
            (if ph.1 = -1 then none else some ph.1)) :=
    fun fh => (map_product_flatMap (fun p h =>
      fetch fh (if h = -1 then none else some h)
        (if p = -1 then none else some p)) pressures heights).symm
  simp only [hinner]

/-- Unfolding rule for `splitDU` when the head is not an underscore. -/
theorem splitDU_cons_ne (c : Char) (cs : Str) (hc : ¬ c = '_') :
    splitDU (c :: cs) = glueHead c (splitDU cs) := by
  rw [splitDU.eq_def]
  simp [hc]

/-- Unfolding rule for `splitDU` when an underscore is followed by a
non-underscore. -/
theorem splitDU_u_ne (x : Char) (rest : Str) (hx : ¬ x = '_') :
    splitDU ('_' :: x :: rest) = glueHead '_' (splitDU (x :: rest)) := by
  rw [splitDU.eq_def]
  simp [hx]

/-- No double underscore occurs in a string: splitting on `"__"` returns
the whole string. -/
theorem splitDU_of_not_infix (l : Str) (h : ¬ chars "__" <:+: l) :
    splitDU l = [l] := by
  induction l with
  | nil => rfl
  | cons c cs ih =>
    have hcs : ¬ chars "__" <:+: cs := not_infix_tail h
    by_cases hc : c = '_'
    · subst hc
      rcases cs with _ | ⟨x, rest⟩
      · rfl
      · have hx : ¬ x = '_' := by
          rintro rfl
          exact h ⟨[], rest, rfl⟩
        rw [splitDU_u_ne x rest hx, ih hcs]
        rfl
    · rw [splitDU_cons_ne c cs hc, ih hcs]
      rfl

/-- Splitting `a ++ "__" ++ b` on `"__"` when `a` holds no double
underscore and does not end with an underscore: the first chunk is `a`. -/
theorem splitDU_append (a b : Str) (h1 : ¬ chars "__" <:+: a)
    (h2 : a.getLast? ≠ some '_') :
    splitDU (a ++ chars "__" ++ b) = a :: splitDU b := by
  induction a with
  | nil =>
    show splitDU ('_' :: '_' :: b) = [] :: splitDU b
    rfl
  | cons c a' ih =>
    have step : splitDU (c :: (a' ++ chars "__" ++ b))
        = glueHead c (splitDU (a' ++ chars "__" ++ b)) := by
      by_cases hc : c = '_'
      · subst hc
        rcases a' with _ | ⟨x, a''⟩
        · exact absurd rfl h2
        · have hx : ¬ x = '_' := by
            rintro rfl
            exact h1 ⟨[], a'', rfl⟩
          show splitDU ('_' :: x :: (a'' ++ chars "__" ++ b))
              = glueHead '_' (splitDU (x :: (a'' ++ chars "__" ++ b)))
          exact splitDU_u_ne x _ hx
      · exact splitDU_cons_ne c _ hc
    have h2' : a'.getLast? ≠ some '_' := by
      rcases a' with _ | ⟨z, a''⟩
      · simp
      · rwa [List.getLast?_cons_cons] at h2
    rw [List.cons_append, List.cons_append, step, ih (not_infix_tail h1) h2']
    rfl

/-- In skipping state, the scanner for `re.sub(r"\d.*", "", s)` drops the
whole remaining newline-free input. -/
theorem subDigitRestGo_true_nil (l : Str) (h : '\n' ∉ l) :
    subDigitRestGo true l = [] := by
  induction l with
  | nil => rfl
  | cons c cs ih =>
    have hc : ¬ c = '\n' := fun he => h (he ▸ List.mem_cons_self c cs)
    simp [subDigitRestGo, hc, ih (fun hm => h (List.mem_cons_of_mem _ hm))]

/-- On newline-free input, `re.sub(r"\d.*", "", s)` keeps exactly the
characters before the first digit. -/
theorem subDigitRest_eq_takeWhile (l : Str) (h : '\n' ∉ l) :
    subDigitRest l = l.takeWhile (fun c => ¬ c.isDigit) := by
  unfold subDigitRest
  induction l with
  | nil => rfl
  | cons c cs ih =>
    by_cases hd : c.isDigit
    · simp [subDigitRestGo, hd, List.takeWhile_cons,
        subDigitRestGo_true_nil cs (fun hm => h (List.mem_cons_of_mem _ hm))]
    · simp [subDigitRestGo, hd, List.takeWhile_cons,
        ih (fun hm => h (List.mem_cons_of_mem _ hm))]

/-- C6: measurement-column naming of the single-coverage fetch.
(1) For indicator `TEMPERATURE` with a decoded `unknown` column and
`heightAboveGround` value 2, the final column is `t_2m`.
(2) For a decoded column other than the literal `unknown` (newline-free,
as decoded grib column names are), the base name keeps exactly the
characters before the first digit.
(3) For the literal `unknown`, the base name is computed from the part of
the coverage id before the first double underscore: the lowercase first
characters of its underscore-separated words.
(4) The final name appends `_{height}m` when a `heightAboveGround` column
is present (regardless of pressure), else `_{pressure}hpa` when an
`isobaricInhPa` column is present, else nothing. -/
theorem C6_measurement_column_naming :
    (measurementColumnName (chars "TEMPERATURE___2024-01-01T00.00.00Z_P1D")
        (chars "unknown") (some 2) none = some (chars "t_2m")) ∧
    (∀ cid icol : Str, ¬ icol = chars "unknown" → '\n' ∉ icol →
      measurementBaseName cid icol
        = some (icol.takeWhile (fun c => ¬ c.isDigit))) ∧
    (∀ part rest : Str, ¬ chars "__" <:+: part → part.getLast? ≠ some '_' →
      measurementBaseName (part ++ chars "__" ++ rest) (chars "unknown")
        = ((splitOnChar '_' part).mapM List.head?).map (List.map Char.toLower)) ∧
    (∀ cid icol base : Str, ∀ hgt prs : Int, ∀ prs? : Option Int,
      measurementBaseName cid icol = some base →
      measurementColumnName cid icol (some hgt) prs?
          = some (base ++ '_' :: (toString hgt).data ++ ['m']) ∧
      measurementColumnName cid icol none (some prs)
          = some (base ++ '_' :: (toString prs).data ++ chars "hpa") ∧
      measurementColumnName cid icol none none = some base) := by
  refine ⟨rfl, ?_, ?_, ?_⟩
  · intro cid icol hne hnl
    unfold measurementBaseName
    rw [if_neg hne, subDigitRest_eq_takeWhile icol hnl]
  · intro part rest h1 h2
    unfold measurementBaseName
    rw [if_pos rfl]
    unfold unknownBaseName
    rw [splitDU_append part rest h1 h2]
    simp only [List.headD_cons]
    cases hm : (splitOnChar '_' part).mapM List.head? with
    | none => rfl
    | some v => rfl
  · intro cid icol base hgt prs prs? hbase
    refine ⟨?_, ?_, ?_⟩ <;> simp [measurementColumnName, hbase]

/-- Witness for the C6 naming rules: digit stripping on `t2m`, initials
on `TOTAL_PRECIPITATION__RATE`, and the pressure suffix. -/
theorem C6_measurement_column_naming_witness :
    measurementBaseName (chars "X") (chars "t2m")
      = some ((chars "t2m").takeWhile (fun c => ¬ c.isDigit)) ∧
    measurementBaseName (chars "TOTAL_PRECIPITATION__RATE") (chars "unknown")
      = ((splitOnChar '_' (chars "TOTAL_PRECIPITATION")).mapM List.head?).map
          (List.map Char.toLower) ∧
    measurementColumnName (chars "X") (chars "abc") none (some 100)
      = some (chars "abc" ++ '_' :: (toString (100 : Int)).data ++ chars "hpa") := by
  refine ⟨C6_measurement_column_naming.2.1 (chars "X") (chars "t2m")
      (by decide) (by decide),
    ?_, ?_⟩
  · exact C6_measurement_column_naming.2.2.1 (chars "TOTAL_PRECIPITATION")
      (chars "RATE") (by decide) (by decide)
  · exact (C6_measurement_column_naming.2.2.2 (chars "X") (chars "abc")
      (chars "abc") 0 100 none rfl).2.1

/-- Congruence of `Except` binds in the continuation. -/
theorem exceptBind_congr {α β : Type} (x : Except String α)
    (f g : α → Except String β) (h : ∀ a, f a = g a) :
    x >>= f = x >>= g := by
  cases x with
  | error e => rfl
  | ok a => exact h a

/-- Once the horizon default has been filled in, the remaining iterations
of the run loop leave it unchanged. -/
theorem combinedLoop_some (INDICATORS INSTANT : List Str) (catalog : List CatRow)
    (desc : Str → List Int) (indicator_names : List Str)
    (heights pressures : List Int) (intervals? : Option (List Str)) :
    ∀ (runs : List Str) (l : List Int) byRun out,
      combinedLoop INDICATORS INSTANT catalog desc indicator_names heights
          pressures intervals? runs (some l) = .ok (byRun, out) →
      out = some l := by
  intro runs
  induction runs with
  | nil =>
    intro l byRun out h
    simp only [combinedLoop, Except.ok.injEq, Prod.mk.injEq] at h
    exact h.2.symm
  | cons run rest ih =>
    intro l byRun out h
    simp only [combinedLoop] at h
    cases hres : resolveRunEntries INDICATORS INSTANT catalog indicator_names
        heights pressures intervals? run with
    | error e => rw [hres] at h; exact absurd h (by simp [Bind.bind, Except.bind])
    | ok entries =>
      rw [hres] at h
      simp only [Bind.bind, Except.bind, pure, Except.pure] at h
      cases hloop : combinedLoop INDICATORS INSTANT catalog desc indicator_names
          heights pressures intervals? rest (some l) with
      | error e => rw [hloop] at h; exact absurd h (by simp)
      | ok pr =>
        rw [hloop] at h
        simp only [Except.ok.injEq, Prod.mk.injEq] at h
        rw [← h.2]
        exact ih l pr.1 pr.2 (by rw [hloop])

/-- C2: in `get_combined_coverage` with `forecast_horizons=None`, the
default is computed only from the first run processed: its entry in
`coverage_ids_by_run` comes first, the sorted common horizons of that
run's resolved coverage ids are computed, and only the first (smallest)
element is kept, as a singleton list returned as the final
`forecast_horizons` used for every run. -/
theorem C2_default_horizons (INDICATORS INSTANT : List Str)
    (catalog : List CatRow) (desc : Str → List Int)
    (indicator_names : List Str) (r0 : Str) (restRuns : List Str)
    (heights? pressures? : Option (List Int)) (intervals? : Option (List Str))
    (byRun : List (Str × List (Str × Option Int × Option Int)))
    (out : Option (List Int))
    (hok : getCombinedSetup INDICATORS INSTANT catalog desc indicator_names
        (r0 :: restRuns) heights? pressures? intervals? none = .ok (byRun, out)) :
    ∃ entries more h0 common,
      byRun = (r0, entries) :: more ∧
      findCommonForecastHorizons desc (entries.map (·.1)) = some common ∧
      common.head? = some h0 ∧
      out = some [h0] := by
  simp only [getCombinedSetup] at hok
  split at hok
  · simp at hok
  · split at hok
    · simp at hok
    · split at hok
      · simp at hok
      · split at hok
        · simp at hok
        · split at hok
          · simp at hok
          · next byRun0 f? heq5 =>
            simp only [combinedLoop] at heq5
            split at heq5
            · simp at heq5
            · next entries hres =>
              split at heq5
              · simp at heq5
              · next f' heqX =>
                split at heqX
                · simp at heqX
                · next fhs0 hdef =>
                  simp only [Except.ok.injEq] at heqX
                  subst heqX
                  split at heq5
                  · simp at heq5
                  · next tail f hloop =>
                    simp only [Except.ok.injEq, Prod.mk.injEq] at heq5
                    obtain ⟨hbr, hfq⟩ := heq5
                    have hf : f = some fhs0 :=
                      combinedLoop_some INDICATORS INSTANT catalog desc
                        indicator_names _ _ intervals? restRuns fhs0 tail f hloop
                    subst hf
                    subst hfq
                    subst hbr
                    split at hok
                    · next heqn => simp at heqn
                    · next fhs heqs =>
                      simp only [Option.some.injEq] at heqs
                      subst heqs
                      split at hok
                      · simp at hok
                      · simp only [Except.ok.injEq, Prod.mk.injEq] at hok
                        unfold defaultHorizons at hdef
                        split at hdef
                        · simp at hdef
                        · next common hcommon =>
                          split at hdef
                          · simp at hdef
                          · next h0 hrest =>
                            simp only [Except.ok.injEq] at hdef
                            refine ⟨entries, tail, h0, h0 :: hrest, hok.1.symm,
                              hcommon, rfl, ?_⟩
                            rw [← hok.2, ← hdef]

/-- Witness for C2 on a one-indicator, one-run catalog whose coverage has
horizons `[3, 1, 2]`: the default horizon list is `[1]`, the smallest
element of the sorted common horizons of the first (only) run. -/
theorem C2_default_horizons_witness :
    ∃ entries more h0 common,
      ([(chars "2024-01-01T00.00.00Z",
          [(chars "T___2024-01-01T00.00.00Z",
            (none : Option Int), (none : Option Int))])]
        : List (Str × List (Str × Option Int × Option Int)))
        = (chars "2024-01-01T00.00.00Z", entries) :: more ∧
      findCommonForecastHorizons
        (fun cid => if cid = chars "T___2024-01-01T00.00.00Z" then [3, 1, 2] else [])
        (entries.map (·.1)) = some common ∧
      common.head? = some h0 ∧
      (some [1] : Option (List Int)) = some [h0] :=
  C2_default_horizons [chars "T"] [chars "T"]
    [⟨chars "T", chars "2024-01-01T00.00.00Z", []⟩]
    (fun cid => if cid = chars "T___2024-01-01T00.00.00Z" then [3, 1, 2] else [])
    [chars "T"] (chars "2024-01-01T00.00.00Z") [] none none none
    [(chars "2024-01-01T00.00.00Z",
      [(chars "T___2024-01-01T00.00.00Z", none, none)])]
    (some [1]) rfl

/-- `mapM` over `Except` respects pointwise-equal functions. -/
theorem listMapM_congr {α β : Type} (f g : α → Except String β)
    (h : ∀ a, f a = g a) : ∀ l : List α, l.mapM f = l.mapM g := by
  intro l
  induction l with
  | nil => rfl
  | cons a as ih => rw [List.mapM_cons, List.mapM_cons, h a, ih]

/-- An empty `intervals` list resolves an entry exactly as `None` does:
`intervals[i] if intervals else None` treats `[]` as falsy. -/
theorem resolveEntry_empty_intervals (INDICATORS INSTANT : List Str)
    (catalog : List CatRow) (heights pressures : List Int)
    (run : Str) (i : Nat) (indicator : Str) :
    resolveEntry INDICATORS INSTANT catalog heights pressures (some []) run i indicator
      = resolveEntry INDICATORS INSTANT catalog heights pressures none run i indicator := by
  simp [resolveEntry]

/-- An empty `intervals` list resolves a whole run exactly as `None`. -/
theorem resolveRunEntries_empty_intervals (INDICATORS INSTANT : List Str)
    (catalog : List CatRow) (indicator_names : List Str)
    (heights pressures : List Int) (run : Str) :
    resolveRunEntries INDICATORS INSTANT catalog indicator_names heights
        pressures (some []) run
      = resolveRunEntries INDICATORS INSTANT catalog indicator_names heights
        pressures none run := by
  unfold resolveRunEntries
  exact listMapM_congr _ _
    (fun (p : Nat × Str) => resolveEntry_empty_intervals INDICATORS INSTANT
      catalog heights pressures run p.1 p.2) _

/-- An empty `intervals` list drives the run loop exactly as `None`. -/
theorem combinedLoop_empty_intervals (INDICATORS INSTANT : List Str)
    (catalog : List CatRow) (desc : Str → List Int)
    (indicator_names : List Str) (heights pressures : List Int) :
    ∀ (runs : List Str) (forecast_horizons? : Option (List Int)),
      combinedLoop INDICATORS INSTANT catalog desc indicator_names heights
          pressures (some []) runs forecast_horizons?
        = combinedLoop INDICATORS INSTANT catalog desc indicator_names heights
          pressures none runs forecast_horizons? := by
  intro runs
  induction runs with
  | nil => intro f?; rfl
  | cons run rest ih =>
    intro f?
    simp only [combinedLoop]
    rw [resolveRunEntries_empty_intervals]
    cases hres : resolveRunEntries INDICATORS INSTANT catalog indicator_names
        heights pressures none run with
    | error e => rfl
    | ok entries =>
      dsimp only
      simp only [ih]

/-- C10: in `get_combined_coverage`, an empty `intervals` list (`[]`) is
treated the same as `None` — being falsy it bypasses the length check
against `indicator_names` and every indicator is resolved with interval
`None` — whereas an empty `heights` or `pressures` list supplied with a
non-empty `indicator_names` raises the length-mismatch error, because the
length check applies to every non-`None` heights / pressures value. -/
theorem C10_empty_list_arguments (INDICATORS INSTANT : List Str)
    (catalog : List CatRow) (desc : Str → List Int)
    (indicator_names runs : List Str)
    (heights? pressures? : Option (List Int)) (intervals? : Option (List Str))
    (forecast_horizons? : Option (List Int)) :
    (getCombinedSetup INDICATORS INSTANT catalog desc indicator_names runs
        heights? pressures? (some []) forecast_horizons?
      = getCombinedSetup INDICATORS INSTANT catalog desc indicator_names runs
        heights? pressures? none forecast_horizons?) ∧
    (runs.Nodup → indicator_names ≠ [] →
      getCombinedSetup INDICATORS INSTANT catalog desc indicator_names runs
        (some []) pressures? intervals? forecast_horizons?
      = .error "The length of heights must match the length of indicator_names.") ∧
    (runs.Nodup → indicator_names ≠ [] →
      getCombinedSetup INDICATORS INSTANT catalog desc indicator_names runs
        none (some []) intervals? forecast_horizons?
      = .error "The length of pressures must match the length of indicator_names.") := by
  refine ⟨?_, ?_, ?_⟩
  · simp only [getCombinedSetup]
    by_cases hnd : ¬ runs.Nodup
    · rw [if_pos hnd, if_pos hnd]
    · rw [if_neg hnd, if_neg hnd]
      cases hh : (match heights? with
          | some l =>
            if l.length ≠ indicator_names.length then
              Except.error "The length of heights must match the length of indicator_names."
            else Except.ok l
          | none => Except.ok ([] : List Int)) with
      | error e => rfl
      | ok heights =>
        dsimp only
        cases hp : (match pressures? with
            | some l =>
              if l.length ≠ indicator_names.length then
                Except.error "The length of pressures must match the length of indicator_names."
              else Except.ok l
            | none => Except.ok ([] : List Int)) with
        | error e => rfl
        | ok pressures =>
          dsimp only
          have hic : (if ([] : List Str) ≠ [] ∧
              ([] : List Str).length ≠ indicator_names.length then
                Except.error (ε := String)
                  "The length of intervals must match the length of indicator_names if provided."
              else Except.ok ()) = Except.ok () := by simp
          rw [hic]
          dsimp only
          rw [combinedLoop_empty_intervals]
  · intro hnd hne
    have h0 : ¬ (0 = indicator_names.length) := fun h =>
      hne (List.length_eq_zero.mp h.symm)
    simp [getCombinedSetup, not_not_intro hnd, h0]
  · intro hnd hne
    have h0 : ¬ (0 = indicator_names.length) := fun h =>
      hne (List.length_eq_zero.mp h.symm)
    simp [getCombinedSetup, not_not_intro hnd, h0]

/-- Witness for C10 on a concrete one-indicator request: empty `intervals`
equals `None`, while empty `heights` or `pressures` abort with the
length-mismatch error. -/
theorem C10_empty_list_arguments_witness :
    (getCombinedSetup [chars "T"] [chars "T"]
        [⟨chars "T", chars "2024-01-01T00.00.00Z", []⟩]
        (fun _ => [0]) [chars "T"] [chars "2024-01-01T00.00.00Z"]
        none none (some []) none
      = getCombinedSetup [chars "T"] [chars "T"]
        [⟨chars "T", chars "2024-01-01T00.00.00Z", []⟩]
        (fun _ => [0]) [chars "T"] [chars "2024-01-01T00.00.00Z"]
        none none none none) ∧
    getCombinedSetup [chars "T"] [chars "T"]
        [⟨chars "T", chars "2024-01-01T00.00.00Z", []⟩]
        (fun _ => [0]) [chars "T"] [chars "2024-01-01T00.00.00Z"]
        (some []) none none none
      = .error "The length of heights must match the length of indicator_names." ∧
    getCombinedSetup [chars "T"] [chars "T"]
        [⟨chars "T", chars "2024-01-01T00.00.00Z", []⟩]
        (fun _ => [0]) [chars "T"] [chars "2024-01-01T00.00.00Z"]
        none (some []) none none
      = .error "The length of pressures must match the length of indicator_names." := by
  obtain ⟨ha, hb, hc⟩ := C10_empty_list_arguments [chars "T"] [chars "T"]
    [⟨chars "T", chars "2024-01-01T00.00.00Z", []⟩]
    (fun _ => [0]) [chars "T"] [chars "2024-01-01T00.00.00Z"]
    none none none none
  exact ⟨ha, hb (by decide) (by decide), hc (by decide) (by decide)⟩
